import Mathlib

/-!
Verification of the `bae` attribute-parsing derive macro (crates
`better-bae` and `better-bae-macros`).

The repository is a proc-macro generator: `#[derive(FromAttributes)]` on a
struct emits (a) a `syn::parse::Parse` implementation that parses the
parenthesized, comma-separated argument list of an attribute named after the
struct, and (b) a `TryFromAttributes` implementation that scans an attribute
list for the first attribute with that name.

We embed the *generated* parser shallowly: proc-macro2 token trees become the
`Tok` inductive, a struct field becomes a `FieldSpec` carrying the two
classification bits computed by `field_is_switch` / `field_is_optional`
together with the `syn::parse::Parse` behaviour of its declared value type
(modelled as a function giving how many tokens a successful parse consumes),
and the generated `fn parse` body becomes `parseEntriesAux` / `parseAttrTokens`.
-/

/-- A proc-macro2 token tree.  `group` is a parenthesized group (the only
delimiter the generated code inspects, via `syn::parenthesized!`), `strLit` a
string literal, `lit` any other literal, `eq` and `comma` the two punctuation
tokens the generated parser looks at, and `other` any further punctuation. -/
inductive Tok where
  | ident (s : String)
  | eq
  | comma
  | group (ts : List Tok)
  | strLit (s : String)
  | lit (s : String)
  | other (s : String)
deriving Repr

/-- The result slot for one field of the generated struct: the generated code
declares `let mut field = None` and fills it with `Some(value)`.  We record a
parsed value as the list of tokens the field's value parser consumed (a switch
records the empty list, standing for `()`). -/
abbrev Store := List (Option (List Tok))

/-- What the generated parser needs to know about one struct field: its name,
the two classification bits (`field_is_switch`, `field_is_optional`) computed
from its declared type, and the `Parse` behaviour of its value type: given the
remaining tokens, `parseVal` returns `some n` when the value parse succeeds
consuming the first `n` tokens, `none` when it fails. -/
structure FieldSpec where
  name : String
  isSwitch : Bool
  isOptional : Bool
  parseVal : List Tok → Option Nat

/-- A schema: the resolved attribute name (`attr_name`) plus the field list,
in declaration order. -/
structure Schema where
  attrName : String
  fields : List FieldSpec

/-! ## The type model (`syn::Type`) and field classification

`field_is_optional`, `field_is_switch` and `inner_type` inspect only:
whether the type is a `Type::Path`; the last path segment's identifier and
arguments; and, within angle-bracketed arguments, the last generic argument
when it is a type.  We model generic arguments as `Option RustType`
(`some t` = `GenericArgument::Type t`, `none` = any non-type argument such as
a lifetime), and `PathArguments::Parenthesized` as an opaque constructor since
`inner_type` never looks inside it. -/

/-- `syn::PathArguments` of one path segment. -/
inductive PathArgs (α : Type) where
  | noArgs
  | angle (args : List (Option α))
  | paren

/-- A `syn::Type`, restricted to the structure the classifier distinguishes:
a path of segments `(ident, arguments)`, a tuple type (so that `()` is
`tuple []`), and anything else. -/
inductive RustType where
  | path (segs : List (String × PathArgs RustType))
  | tuple (elems : List RustType)
  | other

/-- `syn::parse_str::<Type>("()")` produces the empty tuple type; comparing
`inner_type` with `Some(&unit_type)` under syn's `PartialEq` is exactly the
test "is the empty tuple type". -/
def isUnitType : RustType → Bool
  | RustType.tuple [] => true
  | _ => false

/-- `field_is_optional`: the field's type is a `Type::Path` whose last
segment's identifier is `Option`.  (syn guarantees a nonempty segment list;
the source aborts on an empty one, which is unreachable.) -/
def field_is_optional (ty : RustType) : Bool :=
  match ty with
  | RustType.path segs =>
    match segs.getLast? with
    | some seg => seg.1 == "Option"
    | none => false
  | _ => false

/-- `inner_type`: the last generic argument of the last path segment's
angle-bracketed arguments, when that argument is a type.  The source
`abort!`s the whole derive in two places, which we model as `Except.error`
with the abort message: an empty segment list ("Empty type path", unreachable
for types produced by syn's parser, which requires at least one segment) and
an *empty angle-bracket argument list* ("Empty generic argument") — the
latter is reachable, since syn 1.x parses `Foo<>` / `Option<>`, and makes
the derive abort compilation for such a field.  `Except.ok none` is the
source's `return None` paths (non-path type, non-angle-bracketed arguments,
last generic argument not a type). -/
def inner_type (ty : RustType) : Except String (Option RustType) :=
  match ty with
  | RustType.path segs =>
    match segs.getLast? with
    | none => Except.error "Empty type path"
    | some (_, PathArgs.angle args) =>
      match args.getLast? with
      | none => Except.error "Empty generic argument"
      | some (some t) => Except.ok (some t)
      | some none => Except.ok none
    | some _ => Except.ok none
  | _ => Except.ok none

/-- `field_is_switch`: the comparison
`inner_type(&field.ty) == Some(&unit_type)`.  When `inner_type` aborts, the
derive dies before this comparison ever runs, so the `false` returned on the
`Except.error` branch is meaningful only under a no-abort hypothesis; every
classification theorem excludes the abort case explicitly. -/
def field_is_switch (ty : RustType) : Bool :=
  match inner_type ty with
  | Except.ok (some t) => isUnitType t
  | _ => false

/-- Build the `FieldSpec` the generator derives from a named struct field of
declared type `ty`, whose value type parses as `p`. -/
def mkField (name : String) (ty : RustType) (p : List Tok → Option Nat) : FieldSpec :=
  ⟨name, field_is_switch ty, field_is_optional ty, p⟩

/-- The three-way field classification stated by the specification (Mandatory
/ Optional / Switch). -/
inductive FieldKind where
  | mandatory
  | optional
  | switch
deriving DecidableEq, Repr

/-- Modelled from the spec: "a field typed as a single-parameter
optional-wrapper of the unit type is a Switch; a field typed as any other
single-parameter optional-wrapper is Optional; any other field is Mandatory."
Used only to compare the spec's classification with the code's. -/
def specClassify (ty : RustType) : FieldKind :=
  match ty with
  | RustType.path segs =>
    match segs.getLast? with
    | some (name, PathArgs.angle [some t]) =>
      if name = "Option" then
        if isUnitType t then FieldKind.switch else FieldKind.optional
      else FieldKind.mandatory
    | _ => FieldKind.mandatory
  | _ => FieldKind.mandatory

/-- The classification the generated code actually acts on: the match arm is
the switch arm iff `field_is_switch`, and the field is exempt from the
missing-argument check iff `field_is_optional`. -/
def codeClassify (ty : RustType) : FieldKind :=
  if field_is_switch ty then FieldKind.switch
  else if field_is_optional ty then FieldKind.optional
  else FieldKind.mandatory

/-! ## The generated `syn::parse::Parse` implementation -/

/-- `content.parse::<syn::Token![,]>().ok()`: consume one comma if present. -/
def skipComma : List Tok → List Tok
  | Tok.comma :: rest => rest
  | rest => rest

/-- Find the first field whose name equals the parsed key, with its index:
the generated `match` tries the per-field arms in declaration order. -/
def findField : List FieldSpec → String → Option (Nat × FieldSpec)
  | [], _ => none
  | f :: fs, s =>
    if f.name == s then some (0, f)
    else (findField fs s).map (fun p => (p.1 + 1, p.2))

/-- One iteration of the generated `while` loop after the key identifier `s`
has been parsed, together with the trailing `content.parse::<Token![,]>().ok()`:

* switch field — record `Some(())`, consume nothing further;
* value field — require `=`, then run the value type's parse, recording the
  consumed tokens;
* unknown key — `content.parse::<proc_macro2::TokenStream>()?`, which consumes
  the *entire* remainder of the argument list and never fails.

Returns the remaining tokens and the updated store, or the parse error. -/
def entryStep (fields : List FieldSpec) (s : String) (rest : List Tok)
    (st : Store) : Except String (List Tok × Store) :=
  match findField fields s with
  | some (i, f) =>
    if f.isSwitch then
      Except.ok (skipComma rest, st.set i (some []))
    else
      match rest with
      | Tok.eq :: rest2 =>
        match f.parseVal rest2 with
        | some n => Except.ok (skipComma (rest2.drop n), st.set i (some (rest2.take n)))
        | none => Except.error "could not parse value"
      | _ => Except.error "expected `=`"
  | none => Except.ok ([], st)

/-- The generated `while !content.is_empty()` loop.  Each iteration consumes
at least the key identifier, so running it with `content.length` fuel is
exact; the fuel only makes the recursion structural. -/
def parseEntriesAux (fields : List FieldSpec) : Nat → List Tok → Store → Except String Store
  | _, [], st => Except.ok st
  | 0, _ :: _, _ => Except.error "out of fuel"
  | fuel + 1, Tok.ident s :: rest, st =>
    match entryStep fields s rest st with
    | Except.ok (rest2, st2) => parseEntriesAux fields fuel rest2 st2
    | Except.error e => Except.error e
  | _ + 1, _ :: _, _ => Except.error "expected identifier"

/-- The entry loop on the tokens between the parentheses. -/
def parseEntries (fields : List FieldSpec) (content : List Tok) (st : Store) :
    Except String Store :=
  parseEntriesAux fields content.length content st

/-- `let mut field = None;` for every field. -/
def initStore (fields : List FieldSpec) : Store :=
  fields.map (fun _ => none)

/-- The generated missing-mandatory-argument message:
`format!("`#[{}]` is missing `{}` argument", attr_name, arg_name)`. -/
def missingMsg (attrName fieldName : String) : String :=
  s!"`#[{attrName}]` is missing `{fieldName}` argument"

/-- The generated sequence of
`let field = if let Some(field) = field ... else return Err(...)` bindings:
the first field that is not `field_is_optional` and is unset produces the
missing-argument error; otherwise no error. -/
def checkMandatory (attrName : String) : List FieldSpec → Store → Option String
  | [], _ => none
  | _ :: _, [] => none
  | f :: fs, v :: vs =>
    if !f.isOptional && v.isNone then some (missingMsg attrName f.name)
    else checkMandatory attrName fs vs

/-- The whole generated `fn parse`, as run by `syn::parse2` on an attribute's
token stream: the stream must be exactly one parenthesized group
(`syn::parenthesized!` plus `parse2`'s end-of-input check), then the entry
loop runs, then the mandatory-field checks; the resulting store is the parsed
instance (mandatory slots are guaranteed `some` by the check). -/
def parseAttrTokens (sc : Schema) (tokens : List Tok) : Except String Store :=
  match tokens with
  | [Tok.group content] =>
    match parseEntries sc.fields content (initStore sc.fields) with
    | Except.ok st =>
      match checkMandatory sc.attrName sc.fields st with
      | some msg => Except.error msg
      | none => Except.ok st
    | Except.error e => Except.error e
  | _ => Except.error "expected parentheses"

/-! ## The generated `TryFromAttributes` implementation -/

/-- A `syn::Attribute` as the generated `try_from_attributes` sees it:
`pathIdent` is `attr.path.get_ident()` (`some` iff the path is a single plain
identifier), `tokens` is `attr.tokens` (for `#[name(...)]`, a single
parenthesized group). -/
structure SynAttribute where
  pathIdent : Option String
  tokens : List Tok

/-- The generated `try_from_attributes`: scan the attribute list; at the first
attribute whose path is the single identifier `attr_name`, return that
attribute's parse result (`Ok(Some(_))` or `Err(_)`); reaching the end gives
`Ok(None)`. -/
def try_from_attributes (sc : Schema) : List SynAttribute → Except String (Option Store)
  | [] => Except.ok none
  | a :: rest =>
    match a.pathIdent with
    | some id =>
      if id == sc.attrName then (parseAttrTokens sc a.tokens).map Option.some
      else try_from_attributes sc rest
    | none => try_from_attributes sc rest

/-! ## `attr_name` resolution -/

/-- An attribute on the struct declaration, as `attr_name` sees it: `path`
the path segments (`is_ident("bae")` is `path = ["bae"]`), `args` the
attribute's token stream (for `#[bae("x")]`, a parenthesized group holding a
string literal). -/
structure MarkerAttr where
  path : List String
  args : List Tok

/-- `attr.parse_args::<syn::LitStr>()`: the attribute tokens must be one
delimited group whose content is exactly one string literal. -/
def parseArgsLitStr : List Tok → Option String
  | [Tok.group [Tok.strLit s]] => some s
  | _ => none

/-- The body of `attr_name`'s `for` loop: a `bae` attribute whose arguments
parse as a single string literal overwrites the current name; any other
attribute leaves it unchanged. -/
def overrideStep (name : String) (attr : MarkerAttr) : String :=
  if attr.path = ["bae"] then
    match parseArgsLitStr attr.args with
    | some s => s
    | none => name
  else name

/-- `attr_name`: start from the struct name converted by
`heck::ToSnakeCase` (the external case-conversion, passed in as `toSnakeCase`),
then scan the struct's attributes in order, letting every valid `bae` marker
overwrite the name. -/
def attr_name (toSnakeCase : String → String) (structName : String)
    (attrs : List MarkerAttr) : String :=
  attrs.foldl overrideStep (toSnakeCase structName)

/-- The string-literal arguments of the `bae` markers that `attr_name`
accepts, in order. -/
def baeOverrides (attrs : List MarkerAttr) : List String :=
  attrs.filterMap (fun a => if a.path = ["bae"] then parseArgsLitStr a.args else none)

/-! ## Well-formed entries and their rendering

To reason about whole argument lists we describe one entry abstractly as a
key plus the tokens of its value, and render such entries back into the token
form `key` (switch) or `key = value` (value field), with or without the
separating commas. -/

/-- One entry of an argument list: the key identifier and, for a value entry,
the tokens of its value (a switch entry carries the empty payload). -/
structure ArgEntry where
  key : String
  payload : List Tok

/-- The tokens of one entry: `key` for a switch field, `key = payload`
for a value field. -/
def entryToks (fields : List FieldSpec) (e : ArgEntry) : List Tok :=
  match findField fields e.key with
  | some (_, f) =>
    if f.isSwitch then [Tok.ident e.key]
    else Tok.ident e.key :: Tok.eq :: e.payload
  | none => [Tok.ident e.key]

/-- Entries separated (and terminated) by commas. -/
def renderEntries (fields : List FieldSpec) (es : List ArgEntry) : List Tok :=
  es.foldr (fun e acc => entryToks fields e ++ Tok.comma :: acc) []

/-- Entries with no separating commas at all. -/
def renderEntriesNoComma (fields : List FieldSpec) (es : List ArgEntry) : List Tok :=
  es.foldr (fun e acc => entryToks fields e ++ acc) []

/-- The effect of one entry on the store: set the matched field's slot
(`Some(())`, i.e. `[]`, for a switch; the payload for a value field); an
unknown key leaves the store unchanged. -/
def applyEntry (fields : List FieldSpec) (st : Store) (e : ArgEntry) : Store :=
  match findField fields e.key with
  | some (i, f) => st.set i (some (if f.isSwitch then [] else e.payload))
  | none => st

/-- The effect of a sequence of entries. -/
def applyEntries (fields : List FieldSpec) (st : Store) (es : List ArgEntry) : Store :=
  es.foldl (applyEntry fields) st

/-- A well-formed entry for a schema: its key names a field, a switch entry
has no payload, and a value entry's payload is exactly what the field's value
parser consumes no matter what follows (the value is self-delimiting). -/
def EntryOk (fields : List FieldSpec) (e : ArgEntry) : Prop :=
  ∃ i f, findField fields e.key = some (i, f) ∧
    (if f.isSwitch then e.payload = []
     else ∀ rest, f.parseVal (e.payload ++ rest) = some e.payload.length)

/-- `Bool` form of "the entry loop left some non-`Option` field unset". -/
def hasUnsetMandatory (fields : List FieldSpec) (st : Store) : Bool :=
  (fields.zip st).any (fun p => !p.1.isOptional && p.2.isNone)

/-! ## Concrete example schemas used by witnesses and counterexamples -/

/-- The `Parse` behaviour of `syn::Ident` on our token model: consume one
identifier token, fail otherwise. -/
def pIdent : List Tok → Option Nat
  | Tok.ident _ :: _ => some 1
  | _ => none

/-- The type `Ident` (a plain path, no generic arguments). -/
def tyIdent : RustType := RustType.path [("Ident", PathArgs.noArgs)]

/-- The unit type `()`. -/
def tyUnit : RustType := RustType.tuple []

/-- The type `Option<Ident>`. -/
def tyOptionIdent : RustType := RustType.path [("Option", PathArgs.angle [some tyIdent])]

/-- The type `Option<()>`. -/
def tyOptionUnit : RustType := RustType.path [("Option", PathArgs.angle [some tyUnit])]

/-- The type `Box<()>`: a non-`Option` wrapper around the unit type. -/
def tyBoxUnit : RustType := RustType.path [("Box", PathArgs.angle [some tyUnit])]

/-- A field `n: Option<Ident>` — an optional value field. -/
def exOpt (n : String) : FieldSpec := mkField n tyOptionIdent pIdent

/-- A field `n: Ident` — a mandatory value field. -/
def exMan (n : String) : FieldSpec := mkField n tyIdent pIdent

/-- A field `n: Option<()>` — a switch. -/
def exSw (n : String) : FieldSpec := mkField n tyOptionUnit pIdent

/-! ## Basic lemmas about the entry loop -/

theorem skipComma_length_le (l : List Tok) : (skipComma l).length ≤ l.length := by
  cases l with
  | nil => exact Nat.le_refl _
  | cons t rest => cases t <;> simp [skipComma]

theorem entryStep_ok_length {fields : List FieldSpec} {s : String} {rest rest2 : List Tok}
    {st st2 : Store} (h : entryStep fields s rest st = Except.ok (rest2, st2)) :
    rest2.length ≤ rest.length := by
  unfold entryStep at h
  split at h
  · split at h
    · cases h
      exact skipComma_length_le rest
    · split at h
      · split at h
        · cases h
          exact le_trans (skipComma_length_le _)
            (by simp only [List.length_drop, List.length_cons]; omega)
        · simp at h
      · simp at h
  · cases h
    exact Nat.zero_le _

theorem parseEntriesAux_nil (fields : List FieldSpec) (fuel : Nat) (st : Store) :
    parseEntriesAux fields fuel [] st = Except.ok st := by
  cases fuel <;> rfl

theorem parseEntriesAux_fuel (fields : List FieldSpec) :
    ∀ (fuel fuel' : Nat) (toks : List Tok) (st : Store),
      toks.length ≤ fuel → toks.length ≤ fuel' →
      parseEntriesAux fields fuel toks st = parseEntriesAux fields fuel' toks st := by
  intro fuel
  induction fuel with
  | zero =>
    intro fuel' toks st h _
    have : toks = [] := List.eq_nil_of_length_eq_zero (Nat.le_zero.mp h)
    subst this
    rw [parseEntriesAux_nil, parseEntriesAux_nil]
  | succ n ih =>
    intro fuel' toks st h h'
    cases toks with
    | nil => rw [parseEntriesAux_nil, parseEntriesAux_nil]
    | cons t rest =>
      cases fuel' with
      | zero => simp at h'
      | succ m =>
        cases t with
        | ident s =>
          show (match entryStep fields s rest st with
                | Except.ok (rest2, st2) => parseEntriesAux fields n rest2 st2
                | Except.error e => Except.error e) =
               (match entryStep fields s rest st with
                | Except.ok (rest2, st2) => parseEntriesAux fields m rest2 st2
                | Except.error e => Except.error e)
          cases hstep : entryStep fields s rest st with
          | error e => rfl
          | ok p =>
            obtain ⟨rest2, st2⟩ := p
            have hlen := entryStep_ok_length hstep
            simp only []
            exact ih m rest2 st2 (by simp at h; omega) (by simp at h'; omega)
        | eq => rfl
        | comma => rfl
        | group ts => rfl
        | strLit s => rfl
        | lit s => rfl
        | other s => rfl

theorem parseEntries_nil (fields : List FieldSpec) (st : Store) :
    parseEntries fields [] st = Except.ok st := rfl

/-- Unfolding lemma: the entry loop on a key identifier runs one `entryStep`
and continues. -/
theorem parseEntries_cons_ident (fields : List FieldSpec) (s : String)
    (rest : List Tok) (st : Store) :
    parseEntries fields (Tok.ident s :: rest) st =
      match entryStep fields s rest st with
      | Except.ok (rest2, st2) => parseEntries fields rest2 st2
      | Except.error e => Except.error e := by
  show (match entryStep fields s rest st with
        | Except.ok (rest2, st2) => parseEntriesAux fields rest.length rest2 st2
        | Except.error e => Except.error e) = _
  cases hstep : entryStep fields s rest st with
  | error e => rfl
  | ok p =>
    obtain ⟨rest2, st2⟩ := p
    simp only []
    exact parseEntriesAux_fuel fields rest.length rest2.length rest2 st2
      (entryStep_ok_length hstep) (Nat.le_refl _)

theorem parseEntries_cons_eq (fields : List FieldSpec) (rest : List Tok) (st : Store) :
    parseEntries fields (Tok.eq :: rest) st = Except.error "expected identifier" := rfl

theorem entryStep_unknown {fields : List FieldSpec} {s : String} (rest : List Tok)
    (st : Store) (hf : findField fields s = none) :
    entryStep fields s rest st = Except.ok ([], st) := by
  unfold entryStep
  rw [hf]

theorem entryStep_switch {fields : List FieldSpec} {s : String} {i : Nat} {f : FieldSpec}
    (rest : List Tok) (st : Store) (hf : findField fields s = some (i, f))
    (hsw : f.isSwitch = true) :
    entryStep fields s rest st = Except.ok (skipComma rest, st.set i (some [])) := by
  unfold entryStep
  simp [hf, hsw]

theorem entryStep_value {fields : List FieldSpec} {s : String} {i n : Nat} {f : FieldSpec}
    (rest2 : List Tok) (st : Store) (hf : findField fields s = some (i, f))
    (hsw : f.isSwitch = false) (hv : f.parseVal rest2 = some n) :
    entryStep fields s (Tok.eq :: rest2) st =
      Except.ok (skipComma (rest2.drop n), st.set i (some (rest2.take n))) := by
  unfold entryStep
  simp [hf, hsw, hv]

theorem findField_spec {fields : List FieldSpec} {k : String} {i : Nat} {f : FieldSpec}
    (h : findField fields k = some (i, f)) : fields.get? i = some f ∧ f.name = k := by
  induction fields generalizing i with
  | nil => simp [findField] at h
  | cons g gs ih =>
    unfold findField at h
    by_cases hg : g.name == k
    · rw [if_pos hg] at h
      cases h
      exact ⟨rfl, by simpa using hg⟩
    · rw [if_neg hg] at h
      cases hf : findField gs k with
      | none => rw [hf] at h; cases h
      | some p =>
        obtain ⟨j, g'⟩ := p
        rw [hf] at h
        cases h
        obtain ⟨h1, h2⟩ := ih hf
        exact ⟨h1, h2⟩

theorem findField_key_eq {fields : List FieldSpec} {k k' : String} {i : Nat}
    {f f' : FieldSpec} (h : findField fields k = some (i, f))
    (h' : findField fields k' = some (i, f')) : k = k' := by
  obtain ⟨hg, hn⟩ := findField_spec h
  obtain ⟨hg', hn'⟩ := findField_spec h'
  rw [hg] at hg'
  cases hg'
  rw [← hn, hn']

theorem findField_lt {fields : List FieldSpec} {k : String} {i : Nat} {f : FieldSpec}
    (h : findField fields k = some (i, f)) : i < fields.length := by
  obtain ⟨hg, -⟩ := findField_spec h
  exact (List.get?_eq_some.mp hg).1

theorem parseEntries_cons_ident_ok {fields : List FieldSpec} {s : String}
    {rest rest2 : List Tok} {st st2 : Store}
    (hstep : entryStep fields s rest st = Except.ok (rest2, st2)) :
    parseEntries fields (Tok.ident s :: rest) st = parseEntries fields rest2 st2 := by
  rw [parseEntries_cons_ident, hstep]

theorem parseEntries_cons_ident_err {fields : List FieldSpec} {s : String}
    {rest : List Tok} {st : Store} {e : String}
    (hstep : entryStep fields s rest st = Except.error e) :
    parseEntries fields (Tok.ident s :: rest) st = Except.error e := by
  rw [parseEntries_cons_ident, hstep]

theorem renderEntries_cons (fields : List FieldSpec) (e : ArgEntry) (es : List ArgEntry) :
    renderEntries fields (e :: es) =
      entryToks fields e ++ Tok.comma :: renderEntries fields es := rfl

theorem renderEntriesNoComma_cons (fields : List FieldSpec) (e : ArgEntry)
    (es : List ArgEntry) :
    renderEntriesNoComma fields (e :: es) =
      entryToks fields e ++ renderEntriesNoComma fields es := rfl

theorem entryToks_head (fields : List FieldSpec) (e : ArgEntry) :
    ∃ ts, entryToks fields e = Tok.ident e.key :: ts := by
  unfold entryToks
  split
  · split
    · exact ⟨[], rfl⟩
    · exact ⟨Tok.eq :: e.payload, rfl⟩
  · exact ⟨[], rfl⟩

theorem skipComma_renderNoComma (fields : List FieldSpec) (es : List ArgEntry) :
    skipComma (renderEntriesNoComma fields es) = renderEntriesNoComma fields es := by
  cases es with
  | nil => rfl
  | cons e es =>
    rw [renderEntriesNoComma_cons]
    obtain ⟨ts, hts⟩ := entryToks_head fields e
    rw [hts]
    rfl

theorem applyEntry_known {fields : List FieldSpec} {e : ArgEntry} {i : Nat} {f : FieldSpec}
    (st : Store) (hf : findField fields e.key = some (i, f)) :
    applyEntry fields st e = st.set i (some (if f.isSwitch then [] else e.payload)) := by
  unfold applyEntry
  rw [hf]

theorem entryToks_switch {fields : List FieldSpec} {e : ArgEntry} {i : Nat} {f : FieldSpec}
    (hf : findField fields e.key = some (i, f)) (hsw : f.isSwitch = true) :
    entryToks fields e = [Tok.ident e.key] := by
  unfold entryToks
  rw [hf]
  exact if_pos hsw

theorem entryToks_value {fields : List FieldSpec} {e : ArgEntry} {i : Nat} {f : FieldSpec}
    (hf : findField fields e.key = some (i, f)) (hsw : f.isSwitch = false) :
    entryToks fields e = Tok.ident e.key :: Tok.eq :: e.payload := by
  unfold entryToks
  rw [hf]
  exact if_neg (by simp [hsw])

/-- Parsing one well-formed entry followed by a comma applies the entry and
continues. -/
theorem parseEntries_entry_comma {fields : List FieldSpec} {e : ArgEntry}
    (rest : List Tok) (st : Store) (h : EntryOk fields e) :
    parseEntries fields (entryToks fields e ++ Tok.comma :: rest) st =
      parseEntries fields rest (applyEntry fields st e) := by
  obtain ⟨i, f, hf, hok⟩ := h
  rw [applyEntry_known st hf]
  by_cases hsw : f.isSwitch = true
  · rw [entryToks_switch hf hsw, if_pos hsw]
    show parseEntries fields (Tok.ident e.key :: Tok.comma :: rest) st =
      parseEntries fields rest (st.set i (some []))
    rw [parseEntries_cons_ident_ok (entryStep_switch _ _ hf hsw)]
    rfl
  · have hsw' : f.isSwitch = false := by simpa using hsw
    rw [if_neg hsw] at hok
    rw [entryToks_value hf hsw', if_neg hsw]
    show parseEntries fields
        (Tok.ident e.key :: Tok.eq :: (e.payload ++ Tok.comma :: rest)) st =
      parseEntries fields rest (st.set i (some e.payload))
    rw [parseEntries_cons_ident_ok
      (entryStep_value _ _ hf hsw' (hok (Tok.comma :: rest)))]
    rw [List.take_left, List.drop_left]
    rfl

/-- A comma-separated list of well-formed entries parses to exactly the
sequential application of the entries. -/
theorem renderEntries_ok {fields : List FieldSpec} {es : List ArgEntry}
    (st : Store) (h : ∀ e ∈ es, EntryOk fields e) :
    parseEntries fields (renderEntries fields es) st =
      Except.ok (applyEntries fields st es) := by
  induction es generalizing st with
  | nil => rfl
  | cons e es ih =>
    rw [renderEntries_cons,
      parseEntries_entry_comma _ _ (h e (List.mem_cons_self e es))]
    exact ih _ (fun x hx => h x (List.mem_cons_of_mem _ hx))

/-- The same entries with no separating commas at all parse to the same
result: the generated parser treats every comma as optional. -/
theorem renderEntriesNoComma_ok {fields : List FieldSpec} {es : List ArgEntry}
    (st : Store) (h : ∀ e ∈ es, EntryOk fields e) :
    parseEntries fields (renderEntriesNoComma fields es) st =
      Except.ok (applyEntries fields st es) := by
  induction es generalizing st with
  | nil => rfl
  | cons e es ih =>
    obtain ⟨i, f, hf, hok⟩ := h e (List.mem_cons_self e es)
    have hes : ∀ x ∈ es, EntryOk fields x := fun x hx => h x (List.mem_cons_of_mem _ hx)
    have happ : applyEntries fields st (e :: es) =
        applyEntries fields (st.set i (some (if f.isSwitch then [] else e.payload))) es := by
      show applyEntries fields (applyEntry fields st e) es = _
      rw [applyEntry_known st hf]
    rw [renderEntriesNoComma_cons, happ]
    by_cases hsw : f.isSwitch = true
    · rw [entryToks_switch hf hsw, if_pos hsw]
      show parseEntries fields
          (Tok.ident e.key :: renderEntriesNoComma fields es) st =
        Except.ok (applyEntries fields (st.set i (some [])) es)
      rw [parseEntries_cons_ident_ok (entryStep_switch _ _ hf hsw),
        skipComma_renderNoComma]
      exact ih _ hes
    · have hsw' : f.isSwitch = false := by simpa using hsw
      rw [if_neg hsw] at hok
      rw [entryToks_value hf hsw', if_neg hsw]
      show parseEntries fields
          (Tok.ident e.key :: Tok.eq :: (e.payload ++ renderEntriesNoComma fields es)) st =
        Except.ok (applyEntries fields (st.set i (some e.payload)) es)
      rw [parseEntries_cons_ident_ok
        (entryStep_value _ _ hf hsw' (hok (renderEntriesNoComma fields es)))]
      rw [List.take_left, List.drop_left, skipComma_renderNoComma]
      exact ih _ hes

theorem applyEntry_length (fields : List FieldSpec) (st : Store) (e : ArgEntry) :
    (applyEntry fields st e).length = st.length := by
  unfold applyEntry
  split
  · exact List.length_set ..
  · rfl

theorem applyEntries_length (fields : List FieldSpec) (es : List ArgEntry) (st : Store) :
    (applyEntries fields st es).length = st.length := by
  induction es generalizing st with
  | nil => rfl
  | cons e es ih =>
    show (applyEntries fields (applyEntry fields st e) es).length = _
    rw [ih, applyEntry_length]

theorem initStore_length (fields : List FieldSpec) :
    (initStore fields).length = fields.length := List.length_map ..

/-- Entries whose keys differ from `k` never touch `k`'s slot. -/
theorem applyEntries_getElem_of_ne {fields : List FieldSpec} {k : String} {i : Nat}
    {f : FieldSpec} (hf : findField fields k = some (i, f)) (es : List ArgEntry)
    (st : Store) (h : ∀ e ∈ es, e.key ≠ k) :
    (applyEntries fields st es)[i]? = st[i]? := by
  induction es generalizing st with
  | nil => rfl
  | cons e es ih =>
    show (applyEntries fields (applyEntry fields st e) es)[i]? = _
    rw [ih _ (fun x hx => h x (List.mem_cons_of_mem _ hx))]
    unfold applyEntry
    cases hfe : findField fields e.key with
    | none => rfl
    | some p =>
      obtain ⟨j, g⟩ := p
      have hij : j ≠ i := by
        intro hji
        subst hji
        exact h e (List.mem_cons_self e es) (findField_key_eq hfe hf)
      exact List.getElem?_set_ne hij

/-- The slot of a value field after processing a well-formed list of entries
holds the payload of the *last* entry bearing that field's key. -/
theorem applyEntries_last_write {fields : List FieldSpec} {e : ArgEntry} {i : Nat}
    {f : FieldSpec} (l1 l2 : List ArgEntry) (st : Store)
    (hf : findField fields e.key = some (i, f)) (hsw : f.isSwitch = false)
    (hlen : st.length = fields.length) (h2 : ∀ x ∈ l2, x.key ≠ e.key) :
    (applyEntries fields st (l1 ++ e :: l2))[i]? = some (some e.payload) := by
  show ((l1 ++ e :: l2).foldl (applyEntry fields) st)[i]? = _
  rw [List.foldl_append]
  show (applyEntries fields (applyEntry fields (applyEntries fields st l1) e) l2)[i]? = _
  rw [applyEntries_getElem_of_ne hf l2 _ h2, applyEntry_known _ hf, if_neg (by simp [hsw])]
  apply List.getElem?_set_self
  rw [applyEntries_length, hlen]
  exact findField_lt hf

theorem applyEntry_unknown {fields : List FieldSpec} {e : ArgEntry}
    (hf : findField fields e.key = none) (st : Store) :
    applyEntry fields st e = st := by
  unfold applyEntry
  rw [hf]

theorem applyEntry_comm {fields : List FieldSpec} {e1 e2 : ArgEntry}
    (hne : e1.key ≠ e2.key) (st : Store) :
    applyEntry fields (applyEntry fields st e1) e2 =
      applyEntry fields (applyEntry fields st e2) e1 := by
  cases h1 : findField fields e1.key with
  | none => rw [applyEntry_unknown h1, applyEntry_unknown h1]
  | some p1 =>
    obtain ⟨i, f1⟩ := p1
    cases h2 : findField fields e2.key with
    | none => rw [applyEntry_unknown h2, applyEntry_unknown h2]
    | some p2 =>
      obtain ⟨j, f2⟩ := p2
      have hij : i ≠ j := by
        intro hij
        subst hij
        exact hne (findField_key_eq h1 h2)
      rw [applyEntry_known _ h1, applyEntry_known _ h2, applyEntry_known _ h2,
        applyEntry_known _ h1]
      exact List.set_comm _ _ _ hij

/-- Applying entries with pairwise-distinct keys is invariant under
permutation of the entries. -/
theorem applyEntries_perm {fields : List FieldSpec} :
    ∀ {es1 es2 : List ArgEntry}, es1.Perm es2 →
      (es1.map ArgEntry.key).Nodup → ∀ st : Store,
      applyEntries fields st es1 = applyEntries fields st es2 := by
  intro es1 es2 hp
  induction hp with
  | nil => intro _ _; rfl
  | cons x hl ih =>
    intro hnd st
    simp only [List.map_cons, List.nodup_cons] at hnd
    show applyEntries fields (applyEntry fields st x) _ =
      applyEntries fields (applyEntry fields st x) _
    exact ih hnd.2 _
  | swap x y l =>
    intro hnd st
    simp only [List.map_cons, List.nodup_cons, List.mem_cons] at hnd
    have hxy : y.key ≠ x.key := fun h => hnd.1 (Or.inl h)
    show applyEntries fields (applyEntry fields (applyEntry fields st y) x) l =
      applyEntries fields (applyEntry fields (applyEntry fields st x) y) l
    rw [applyEntry_comm hxy st]
  | trans h1 h2 ih1 ih2 =>
    intro hnd st
    rw [ih1 hnd st, ih2 ((h1.map ArgEntry.key).nodup hnd) st]

/-! ## Lemmas about the mandatory-field check -/

theorem checkMandatory_some (a : String) {fields : List FieldSpec} {st : Store}
    (h : hasUnsetMandatory fields st = true) :
    ∃ f ∈ fields, f.isOptional = false ∧
      checkMandatory a fields st = some (missingMsg a f.name) := by
  induction fields generalizing st with
  | nil => simp [hasUnsetMandatory] at h
  | cons f fs ih =>
    cases st with
    | nil => simp [hasUnsetMandatory] at h
    | cons v vs =>
      unfold hasUnsetMandatory at h
      simp only [List.zip_cons_cons, List.any_cons, Bool.or_eq_true] at h
      cases hc : (!f.isOptional && v.isNone) with
      | true =>
        have hopt : f.isOptional = false := by
          revert hc
          cases f.isOptional <;> simp
        refine ⟨f, List.mem_cons_self f fs, hopt, ?_⟩
        unfold checkMandatory
        rw [if_pos hc]
      | false =>
        rw [hc] at h
        simp only [Bool.false_eq_true, false_or] at h
        obtain ⟨g, hg, hgopt, hgeq⟩ := ih h
        refine ⟨g, List.mem_cons_of_mem _ hg, hgopt, ?_⟩
        unfold checkMandatory
        rw [if_neg (by simp [hc])]
        exact hgeq

theorem checkMandatory_none {a : String} {fields : List FieldSpec} {st : Store}
    (h : hasUnsetMandatory fields st = false) :
    checkMandatory a fields st = none := by
  induction fields generalizing st with
  | nil => rfl
  | cons f fs ih =>
    cases st with
    | nil => rfl
    | cons v vs =>
      unfold hasUnsetMandatory at h
      simp only [List.zip_cons_cons, List.any_cons, Bool.or_eq_false_iff] at h
      unfold checkMandatory
      rw [if_neg (by simp [h.1])]
      exact ih h.2

/-! ## Lemmas about `attr_name` -/

theorem getLast?_cons_getD {α : Type} (l : List α) :
    ∀ (a init : α), ((a :: l).getLast?).getD init = (l.getLast?).getD a := by
  induction l with
  | nil => intro a init; rfl
  | cons b l ih =>
    intro a init
    rw [List.getLast?_cons_cons, ih b init, ← ih b a]

theorem attr_name_fold (attrs : List MarkerAttr) :
    ∀ init, attrs.foldl overrideStep init = ((baeOverrides attrs).getLast?).getD init := by
  induction attrs with
  | nil => intro init; rfl
  | cons a rest ih =>
    intro init
    rw [List.foldl_cons, ih]
    by_cases hpath : a.path = ["bae"]
    · cases hargs : parseArgsLitStr a.args with
      | some s =>
        have h1 : overrideStep init a = s := by
          unfold overrideStep
          rw [if_pos hpath, hargs]
        have h2 : baeOverrides (a :: rest) = s :: baeOverrides rest := by
          simp [baeOverrides, List.filterMap_cons, hpath, hargs]
        rw [h1, h2, getLast?_cons_getD]
      | none =>
        have h1 : overrideStep init a = init := by
          unfold overrideStep
          rw [if_pos hpath, hargs]
        have h2 : baeOverrides (a :: rest) = baeOverrides rest := by
          simp [baeOverrides, List.filterMap_cons, hpath, hargs]
        rw [h1, h2]
    · have h1 : overrideStep init a = init := by
        unfold overrideStep
        rw [if_neg hpath]
      have h2 : baeOverrides (a :: rest) = baeOverrides rest := by
        simp [baeOverrides, List.filterMap_cons, hpath]
      rw [h1, h2]

/-! ## Unfolding helpers for the top-level parse -/

theorem parseAttrTokens_group (sc : Schema) (content : List Tok) :
    parseAttrTokens sc [Tok.group content] =
      match parseEntries sc.fields content (initStore sc.fields) with
      | Except.ok st =>
        match checkMandatory sc.attrName sc.fields st with
        | some msg => Except.error msg
        | none => Except.ok st
      | Except.error e => Except.error e := rfl

theorem parseAttrTokens_ok_of {sc : Schema} {content : List Tok} {st : Store}
    (hloop : parseEntries sc.fields content (initStore sc.fields) = Except.ok st)
    (hchk : checkMandatory sc.attrName sc.fields st = none) :
    parseAttrTokens sc [Tok.group content] = Except.ok st := by
  rw [parseAttrTokens_group, hloop]
  show (match checkMandatory sc.attrName sc.fields st with
        | some msg => Except.error msg
        | none => Except.ok st) = Except.ok st
  rw [hchk]

theorem parseAttrTokens_err_of {sc : Schema} {content : List Tok} {st : Store} {msg : String}
    (hloop : parseEntries sc.fields content (initStore sc.fields) = Except.ok st)
    (hchk : checkMandatory sc.attrName sc.fields st = some msg) :
    parseAttrTokens sc [Tok.group content] = Except.error msg := by
  rw [parseAttrTokens_group, hloop]
  show (match checkMandatory sc.attrName sc.fields st with
        | some msg => Except.error msg
        | none => Except.ok st) = Except.error msg
  rw [hchk]

theorem try_from_attributes_cons (sc : Schema) (a : SynAttribute)
    (rest : List SynAttribute) :
    try_from_attributes sc (a :: rest) =
      match a.pathIdent with
      | some id =>
        if id == sc.attrName then (parseAttrTokens sc a.tokens).map Option.some
        else try_from_attributes sc rest
      | none => try_from_attributes sc rest := rfl

/-! ## Concrete schemas shared by witnesses and counterexamples -/

/-- Schema with one optional field `x: Option<Ident>`. -/
def scOptX : Schema := ⟨"my_attr", [exOpt "x"]⟩

/-- Schema with one mandatory field `x: Ident`. -/
def scManX : Schema := ⟨"my_attr", [exMan "x"]⟩

/-- Schema with switches `a: Option<()>` and `b: Option<()>`. -/
def scSw2 : Schema := ⟨"my_attr", [exSw "a", exSw "b"]⟩

/-- Schema with one switch `kind: Option<()>`. -/
def scSwK : Schema := ⟨"my_attr", [exSw "kind"]⟩

/-- Schema with an optional field `x: Option<Ident>` and a switch `s: Option<()>`. -/
def scOS : Schema := ⟨"my_attr", [exOpt "x", exSw "s"]⟩

/-! ## The claims -/

/-- Claim C1, counterexample.  The claim says an unknown key consumes exactly
one token-tree value and parsing then continues, so the later recognized entry
`x = v` is still recorded.  On the input `(foo = bar, x = v)` against a schema
with the single optional field `x`, the generated parser instead returns
success with `x` unset: the unknown-key arm parses a `proc_macro2::TokenStream`,
which consumes the whole remainder, so `x = v` was never examined. -/
theorem claim_C1_counterexample :
    parseAttrTokens scOptX
        [Tok.group [Tok.ident "foo", Tok.eq, Tok.ident "bar", Tok.comma,
          Tok.ident "x", Tok.eq, Tok.ident "v"]] = Except.ok [none]
    ∧ ([none] : Store) ≠ [some [Tok.ident "v"]] :=
  ⟨rfl, by simp⟩

/-- Claim C1, amended.  An entry whose key matches no field name is still
skipped without error, but by consuming the *entire remaining argument list*
(not one token tree): the loop ends immediately with the store unchanged, so
subsequent entries are never parsed or recorded. -/
theorem claim_C1_amended (fields : List FieldSpec) (s : String) (rest : List Tok)
    (st : Store) (h : findField fields s = none) :
    parseEntries fields (Tok.ident s :: rest) st = Except.ok st := by
  rw [parseEntries_cons_ident_ok (entryStep_unknown rest st h)]
  exact parseEntries_nil fields st

/-- Witness for C1 (amended): a concrete unknown key `foo` with recognized
entries after it; the loop succeeds with the store untouched. -/
theorem claim_C1_amended_witness :
    parseEntries [exOpt "x"]
      [Tok.ident "foo", Tok.eq, Tok.ident "bar", Tok.comma, Tok.ident "x",
        Tok.eq, Tok.ident "v"] [none] = Except.ok [none] :=
  claim_C1_amended [exOpt "x"] "foo" _ [none] rfl

/-- Claim C2, counterexample.  The claim says a field is a Switch **iff** its
type is `Option<()>`, and in particular a non-`Option` wrapper around unit is
Mandatory, not a Switch.  But `field_is_switch` only compares `inner_type`
with the unit type, so `Box<()>` is classified as a Switch by the code while
the spec's classification calls it Mandatory. -/
theorem claim_C2_counterexample :
    codeClassify tyBoxUnit = FieldKind.switch
    ∧ specClassify tyBoxUnit = FieldKind.mandatory
    ∧ FieldKind.switch ≠ FieldKind.mandatory :=
  ⟨rfl, rfl, by decide⟩

/-- Claim C2, amended.  Classification looks only at the type's last path
segment.  If that segment carries an *empty* angle-bracket argument list
(`Option<>`, `Foo<>`), the derive aborts compilation with "Empty generic
argument" and no classification exists.  Otherwise: the field gets the
bare-key Switch parse arm iff the segment's angle-bracketed arguments end in
a type equal to unit — regardless of the wrapper's identifier (so `Box<()>`
is a Switch); a segment with no angle-bracketed arguments (plain, or
parenthesized) is never a Switch; and, whenever the derive does not abort,
the field is exempt from the mandatory check iff the last segment's
identifier is `Option`.  Non-path types (e.g. tuples) are never Switch and
never exempt. -/
theorem claim_C2_amended (segs : List (String × PathArgs RustType)) (w : String)
    (pargs : PathArgs RustType) :
    (pargs = PathArgs.angle [] →
      inner_type (RustType.path (segs ++ [(w, pargs)])) =
        Except.error "Empty generic argument")
    ∧ (∀ args, pargs = PathArgs.angle args → args ≠ [] →
        (field_is_switch (RustType.path (segs ++ [(w, pargs)])) = true ↔
          ∃ t, args.getLast? = some (some t) ∧ isUnitType t = true))
    ∧ (pargs = PathArgs.noArgs ∨ pargs = PathArgs.paren →
        field_is_switch (RustType.path (segs ++ [(w, pargs)])) = false)
    ∧ (pargs ≠ PathArgs.angle [] →
        (field_is_optional (RustType.path (segs ++ [(w, pargs)])) = true ↔
          w = "Option"))
    ∧ (∀ ts, field_is_switch (RustType.tuple ts) = false ∧
        field_is_optional (RustType.tuple ts) = false)
    ∧ (field_is_switch RustType.other = false ∧
        field_is_optional RustType.other = false) := by
  refine ⟨?_, ?_, ?_, ?_, fun _ => ⟨rfl, rfl⟩, rfl, rfl⟩
  · intro h
    subst h
    simp [inner_type, List.getLast?_concat]
  · intro args h hne
    subst h
    cases hl : args.getLast? with
    | none => exact absurd (List.getLast?_eq_none_iff.mp hl) hne
    | some o =>
      cases o with
      | none => simp [field_is_switch, inner_type, List.getLast?_concat, hl]
      | some t => simp [field_is_switch, inner_type, List.getLast?_concat, hl]
  · intro h
    rcases h with h | h <;> subst h <;>
      simp [field_is_switch, inner_type, List.getLast?_concat]
  · intro _
    simp [field_is_optional, List.getLast?_concat]

/-- Witness for C2 (amended): `Option<>` (empty angle-bracket list) makes the
derive abort with "Empty generic argument", and `Box<()>` — a non-`Option`
wrapper around unit — is classified as a Switch. -/
theorem claim_C2_amended_witness :
    inner_type (RustType.path [("Option", PathArgs.angle [])]) =
      Except.error "Empty generic argument"
    ∧ field_is_switch
        (RustType.path [("Box", PathArgs.angle [some (RustType.tuple [])])]) =
      true :=
  ⟨(claim_C2_amended [] "Option" (PathArgs.angle [])).1 rfl,
    ((claim_C2_amended [] "Box"
        (PathArgs.angle [some (RustType.tuple [])])).2.1
      [some (RustType.tuple [])] rfl (by simp)).mpr ⟨RustType.tuple [], rfl, rfl⟩⟩

/-- Claim C3: after the entry loop completes, if some non-`Option` field is
unset the parse fails with the generated message naming both the resolved
attribute name and the missing field's name; if every such field is set, the
parse succeeds with the loop's store. -/
theorem claim_C3 (sc : Schema) (content : List Tok) (st : Store)
    (hloop : parseEntries sc.fields content (initStore sc.fields) = Except.ok st) :
    (hasUnsetMandatory sc.fields st = true →
      ∃ f ∈ sc.fields, f.isOptional = false ∧
        parseAttrTokens sc [Tok.group content] =
          Except.error (missingMsg sc.attrName f.name))
    ∧ (hasUnsetMandatory sc.fields st = false →
        parseAttrTokens sc [Tok.group content] = Except.ok st) := by
  constructor
  · intro h
    obtain ⟨f, hmem, hopt, hchk⟩ := checkMandatory_some sc.attrName h
    exact ⟨f, hmem, hopt, parseAttrTokens_err_of hloop hchk⟩
  · intro h
    exact parseAttrTokens_ok_of hloop (checkMandatory_none h)

/-- Witness for C3: the mandatory field `x` is supplied, so the parse
succeeds. -/
theorem claim_C3_witness :
    parseAttrTokens scManX [Tok.group [Tok.ident "x", Tok.eq, Tok.ident "v"]] =
      Except.ok [some [Tok.ident "v"]] :=
  (claim_C3 scManX [Tok.ident "x", Tok.eq, Tok.ident "v"]
    [some [Tok.ident "v"]] rfl).2 rfl

/-- Claim C4: the resolved attribute name is the snake-cased struct name by
default, and the *last* `bae("...")` marker in declaration order wins;
`attr_name` is a total function, so duplicates never raise an error. -/
theorem claim_C4 (toSnakeCase : String → String) (structName : String)
    (attrs : List MarkerAttr) :
    attr_name toSnakeCase structName attrs =
      ((baeOverrides attrs).getLast?).getD (toSnakeCase structName) :=
  attr_name_fold attrs (toSnakeCase structName)

/-- Claim C5: `try_from_attributes` returns `Ok(None)` when no attribute's
single-identifier path equals the resolved name, and otherwise returns the
parse result of the *first* matching attribute — later matches are never
examined, exactly the behaviour of `List.find?`. -/
theorem claim_C5 (sc : Schema) (attrs : List SynAttribute) :
    try_from_attributes sc attrs =
      match attrs.find? (fun a => a.pathIdent == some sc.attrName) with
      | none => Except.ok none
      | some a => (parseAttrTokens sc a.tokens).map Option.some := by
  induction attrs with
  | nil => rfl
  | cons a rest ih =>
    cases hid : a.pathIdent with
    | none =>
      rw [try_from_attributes_cons, hid,
        List.find?_cons_of_neg _ (by simp [hid])]
      exact ih
    | some id =>
      by_cases hbeq : (id == sc.attrName) = true
      · rw [try_from_attributes_cons, hid,
          List.find?_cons_of_pos _ (by rw [hid]; exact hbeq)]
        show (if id == sc.attrName then (parseAttrTokens sc a.tokens).map Option.some
              else try_from_attributes sc rest) =
          (parseAttrTokens sc a.tokens).map Option.some
        rw [if_pos hbeq]
      · rw [try_from_attributes_cons, hid,
          List.find?_cons_of_neg _ (by rw [hid]; exact hbeq)]
        show (if id == sc.attrName then (parseAttrTokens sc a.tokens).map Option.some
              else try_from_attributes sc rest) = _
        rw [if_neg hbeq]
        exact ih

/-- Claim C6, counterexample.  The claim says two entries with the same
value-field key always yield the value of the later one.  On
`(x = a, foo = b, x = c)` against a schema with the single optional field
`x`, the unknown key `foo` makes the generated parser discard the rest of the
list, so the parse succeeds with `x` holding `a` — the value of the *first*
`x` entry, not the later `x = c`. -/
theorem claim_C6_counterexample :
    parseAttrTokens scOptX
        [Tok.group [Tok.ident "x", Tok.eq, Tok.ident "a", Tok.comma,
          Tok.ident "foo", Tok.eq, Tok.ident "b", Tok.comma,
          Tok.ident "x", Tok.eq, Tok.ident "c"]] = Except.ok [some [Tok.ident "a"]]
    ∧ ([some [Tok.ident "a"]] : Store) ≠ [some [Tok.ident "c"]] :=
  ⟨rfl, by simp⟩

/-- Claim C6, amended.  Provided every entry of the argument list bears a
recognized key with a well-formed self-delimiting value (in particular, no
unknown keys), the parsed instance maps a value field to the payload of the
*last* entry bearing its key, and the parse succeeds whenever the mandatory
check passes. -/
theorem claim_C6_amended (sc : Schema) (l1 l2 : List ArgEntry) (e : ArgEntry)
    (i : Nat) (f : FieldSpec)
    (hok : ∀ x ∈ l1 ++ e :: l2, EntryOk sc.fields x)
    (hf : findField sc.fields e.key = some (i, f))
    (hsw : f.isSwitch = false)
    (hlast : ∀ x ∈ l2, x.key ≠ e.key)
    (hchk : checkMandatory sc.attrName sc.fields
      (applyEntries sc.fields (initStore sc.fields) (l1 ++ e :: l2)) = none) :
    parseAttrTokens sc [Tok.group (renderEntries sc.fields (l1 ++ e :: l2))] =
      Except.ok (applyEntries sc.fields (initStore sc.fields) (l1 ++ e :: l2))
    ∧ (applyEntries sc.fields (initStore sc.fields) (l1 ++ e :: l2))[i]? =
      some (some e.payload) :=
  ⟨parseAttrTokens_ok_of (renderEntries_ok _ hok) hchk,
    applyEntries_last_write l1 l2 _ hf hsw (initStore_length sc.fields) hlast⟩

/-- Witness for C6 (amended): `(x = a, x = b)` on the one-optional-field
schema parses successfully and `x` holds `b`, the later entry's value. -/
theorem claim_C6_amended_witness :
    parseAttrTokens scOptX
        [Tok.group (renderEntries scOptX.fields
          [⟨"x", [Tok.ident "a"]⟩, ⟨"x", [Tok.ident "b"]⟩])] =
      Except.ok (applyEntries scOptX.fields (initStore scOptX.fields)
        [⟨"x", [Tok.ident "a"]⟩, ⟨"x", [Tok.ident "b"]⟩])
    ∧ (applyEntries scOptX.fields (initStore scOptX.fields)
        [⟨"x", [Tok.ident "a"]⟩, ⟨"x", [Tok.ident "b"]⟩])[0]? =
      some (some [Tok.ident "b"]) :=
  claim_C6_amended scOptX [⟨"x", [Tok.ident "a"]⟩] [] ⟨"x", [Tok.ident "b"]⟩ 0
    (exOpt "x")
    (by
      intro x hx
      simp only [List.cons_append, List.nil_append, List.mem_cons,
        List.not_mem_nil, or_false] at hx
      rcases hx with rfl | rfl
      · exact ⟨0, exOpt "x", rfl, fun _ => rfl⟩
      · exact ⟨0, exOpt "x", rfl, fun _ => rfl⟩)
    rfl rfl (fun x hx => absurd hx (List.not_mem_nil x)) rfl

/-- Claim C7, counterexample.  The claim says a missing comma between two
entries (neither at end-of-list) makes the parse fail.  But the generated
loop consumes the separating comma with `.ok()`, so `(a b)` — two switch
entries with no comma between them — parses successfully. -/
theorem claim_C7_counterexample :
    parseAttrTokens scSw2 [Tok.group [Tok.ident "a", Tok.ident "b"]] =
      Except.ok [some [], some []] := rfl

/-- Claim C7, amended.  For well-formed (self-delimiting) entries the comma
after every entry is optional *everywhere*, not only after the final entry:
rendering the same entries with no commas at all, or with a comma after every
entry including a trailing one, parses to the identical store. -/
theorem claim_C7_amended (sc : Schema) (es : List ArgEntry)
    (h : ∀ e ∈ es, EntryOk sc.fields e) (st : Store) :
    parseEntries sc.fields (renderEntriesNoComma sc.fields es) st =
      Except.ok (applyEntries sc.fields st es)
    ∧ parseEntries sc.fields (renderEntries sc.fields es) st =
      Except.ok (applyEntries sc.fields st es) :=
  ⟨renderEntriesNoComma_ok st h, renderEntries_ok st h⟩

/-- Witness for C7 (amended): the two switch entries `a`, `b` parse to the
same store with and without commas. -/
theorem claim_C7_amended_witness :
    parseEntries scSw2.fields
        (renderEntriesNoComma scSw2.fields [⟨"a", []⟩, ⟨"b", []⟩])
        (initStore scSw2.fields) =
      Except.ok (applyEntries scSw2.fields (initStore scSw2.fields)
        [⟨"a", []⟩, ⟨"b", []⟩])
    ∧ parseEntries scSw2.fields
        (renderEntries scSw2.fields [⟨"a", []⟩, ⟨"b", []⟩])
        (initStore scSw2.fields) =
      Except.ok (applyEntries scSw2.fields (initStore scSw2.fields)
        [⟨"a", []⟩, ⟨"b", []⟩]) :=
  claim_C7_amended scSw2 [⟨"a", []⟩, ⟨"b", []⟩]
    (by
      intro x hx
      simp only [List.mem_cons, List.not_mem_nil, or_false] at hx
      rcases hx with rfl | rfl
      · exact ⟨0, exSw "a", rfl, rfl⟩
      · exact ⟨1, exSw "b", rfl, rfl⟩)
    (initStore scSw2.fields)

/-- Claim C8, counterexample.  The claim says permuting the entries of an
argument list always yields an identical parsed instance.  `(x = b, x = a)`
is a permutation of `(x = a, x = b)`, yet the two parses succeed with
different instances — last-write-wins makes duplicate keys order-dependent. -/
theorem claim_C8_counterexample :
    parseAttrTokens scOptX
        [Tok.group [Tok.ident "x", Tok.eq, Tok.ident "a", Tok.comma,
          Tok.ident "x", Tok.eq, Tok.ident "b", Tok.comma]] =
      Except.ok [some [Tok.ident "b"]]
    ∧ parseAttrTokens scOptX
        [Tok.group [Tok.ident "x", Tok.eq, Tok.ident "b", Tok.comma,
          Tok.ident "x", Tok.eq, Tok.ident "a", Tok.comma]] =
      Except.ok [some [Tok.ident "a"]]
    ∧ (Except.ok [some [Tok.ident "b"]] : Except String Store) ≠
      Except.ok [some [Tok.ident "a"]] :=
  ⟨rfl, rfl, by simp⟩

/-- Claim C8, amended.  For argument lists of well-formed entries whose keys
are pairwise distinct (and all recognized), permuting the entries yields an
identical parse result. -/
theorem claim_C8_amended (sc : Schema) (es1 es2 : List ArgEntry)
    (hp : es1.Perm es2) (hok : ∀ e ∈ es1, EntryOk sc.fields e)
    (hnd : (es1.map ArgEntry.key).Nodup) :
    parseAttrTokens sc [Tok.group (renderEntries sc.fields es1)] =
      parseAttrTokens sc [Tok.group (renderEntries sc.fields es2)] := by
  have hok2 : ∀ e ∈ es2, EntryOk sc.fields e := fun e he => hok e (hp.mem_iff.mpr he)
  rw [parseAttrTokens_group, parseAttrTokens_group,
    renderEntries_ok _ hok, renderEntries_ok _ hok2,
    applyEntries_perm hp hnd (initStore sc.fields)]

/-- Witness for C8 (amended): swapping the two distinct-key entries
`x = v` and `s` parses to the same result. -/
theorem claim_C8_amended_witness :
    parseAttrTokens scOS
        [Tok.group (renderEntries scOS.fields [⟨"x", [Tok.ident "v"]⟩, ⟨"s", []⟩])] =
      parseAttrTokens scOS
        [Tok.group (renderEntries scOS.fields [⟨"s", []⟩, ⟨"x", [Tok.ident "v"]⟩])] :=
  claim_C8_amended scOS [⟨"x", [Tok.ident "v"]⟩, ⟨"s", []⟩]
    [⟨"s", []⟩, ⟨"x", [Tok.ident "v"]⟩]
    (List.Perm.swap (ArgEntry.mk "s" []) (ArgEntry.mk "x" [Tok.ident "v"]) [])
    (by
      intro x hx
      simp only [List.mem_cons, List.not_mem_nil, or_false] at hx
      rcases hx with rfl | rfl
      · exact ⟨0, exOpt "x", rfl, fun _ => rfl⟩
      · exact ⟨1, exSw "s", rfl, rfl⟩)
    (by decide)

/-- Claim C9: a `bae` marker whose arguments do not parse as exactly one
string literal is silently ignored by `attr_name`: deleting it from the
attribute list does not change the resolved name, so the name keeps its
previous value (the snake-case default or an earlier valid override). -/
theorem claim_C9 (toSnakeCase : String → String) (structName : String)
    (l1 l2 : List MarkerAttr) (a : MarkerAttr)
    (h : a.path ≠ ["bae"] ∨ parseArgsLitStr a.args = none) :
    attr_name toSnakeCase structName (l1 ++ a :: l2) =
      attr_name toSnakeCase structName (l1 ++ l2) := by
  unfold attr_name
  rw [attr_name_fold, attr_name_fold]
  have hov : baeOverrides (l1 ++ a :: l2) = baeOverrides (l1 ++ l2) := by
    unfold baeOverrides
    rw [List.filterMap_append, List.filterMap_append, List.filterMap_cons]
    rcases h with h | h
    · simp [h]
    · by_cases hp : a.path = ["bae"]
      · simp [hp, h]
      · simp [hp]
  rw [hov]

/-- Witness for C9: the marker `#[bae]` (no argument tokens at all) is
ignored; the resolved name is the same as with no markers. -/
theorem claim_C9_witness :
    attr_name (fun s => s) "MyAttr" ([] ++ MarkerAttr.mk ["bae"] [] :: []) =
      attr_name (fun s => s) "MyAttr" ([] ++ []) :=
  claim_C9 (fun s => s) "MyAttr" [] [] (MarkerAttr.mk ["bae"] []) (Or.inr rfl)

/-- Claim C10: when a switch field's key is followed by `=`, the switch arm
consumes nothing after the key, the optional comma parse fails harmlessly on
`=`, and the next loop iteration's identifier parse fails on `=` — the whole
parse returns an error rather than accepting or skipping the entry. -/
theorem claim_C10 (sc : Schema) (k : String) (i : Nat) (f : FieldSpec)
    (rest : List Tok) (hf : findField sc.fields k = some (i, f))
    (hsw : f.isSwitch = true) :
    parseAttrTokens sc [Tok.group (Tok.ident k :: Tok.eq :: rest)] =
      Except.error "expected identifier" := by
  rw [parseAttrTokens_group]
  have h1 : parseEntries sc.fields (Tok.ident k :: Tok.eq :: rest)
      (initStore sc.fields) = Except.error "expected identifier" := by
    rw [parseEntries_cons_ident_ok (entryStep_switch _ _ hf hsw)]
    exact parseEntries_cons_eq sc.fields rest _
  rw [h1]

/-- Witness for C10: `(kind = v)` against the one-switch schema errors. -/
theorem claim_C10_witness :
    parseAttrTokens scSwK [Tok.group [Tok.ident "kind", Tok.eq, Tok.ident "v"]] =
      Except.error "expected identifier" :=
  claim_C10 scSwK "kind" 0 (exSw "kind") [Tok.ident "v"] rfl rfl
